import Mathlib

/-!
Shallow embedding of the analysis/checks engine of `eksup` (`src/checks.rs`).

Rust `&str` values are modelled as `List Char`. Rust `Result<T, anyhow::Error>`
is modelled as `Except RunError T`; Rust panics (`Option::unwrap` on `None`,
out-of-bounds slice indexing) abort the run just like propagated errors, and are
modelled as dedicated `RunError` constructors so that a returned error and a
panic stay distinguishable.

Collector functions (the `aws` module, external to the checks engine) are passed
in as function parameters, and the batched subnet query / add-on version lookups
are instrumented with explicit call logs so that "how many lookups were issued,
and with what argument" is part of the function's result.
-/

deriving instance DecidableEq for Except

namespace Eksup

/-- Rust's `str::split(sep)` on a character separator: always returns at least
one (possibly empty) segment; `"".split = [""]`, `"a." .split = ["a", ""]`. -/
def splitOnChar (sep : Char) : List Char → List (List Char)
  | [] => [[]]
  | c :: rest =>
    match splitOnChar sep rest with
    | [] => [[]]
    | p :: ps => if c = sep then [] :: p :: ps else (c :: p) :: ps

/-- Digit-string to number, most significant digit first. -/
def charsToNat (s : List Char) : Nat :=
  s.foldl (fun acc c => acc * 10 + (c.toNat - 48)) 0

/-- Rust's `str::parse::<u32>`: an optional leading `+` followed by one or more
ASCII digits, with the value required to fit in 32 bits; anything else is a
`ParseIntError`. -/
def rustParseU32 (s : List Char) : Option Nat :=
  let digits := match s with
    | '+' :: rest => rest
    | _ => s
  if digits.isEmpty then none
  else if digits.all Char.isDigit then
    let n := charsToNat digits
    if n < 4294967296 then some n else none
  else none

/-- The ways a run of the checks engine can abort.

`malformedVersion` is a genuine returned error (a `ParseIntError` propagated
with `?` into `anyhow::Error`); the two `panic…` constructors model Rust panics
(`Option::unwrap` on `None`, and indexing `v[1]` past the end of a vector),
which abort the process rather than returning an error value. -/
inductive RunError where
  | malformedVersion : RunError
  | panicOutOfBounds : RunError
  | panicUnwrapNone : RunError
deriving DecidableEq, Repr

/-- `parse_minor_version` from `src/checks.rs`: split on `.`, index segment 1
(a panic when the split yields fewer than two segments), parse it as `u32`
(a returned error when that fails). -/
def parse_minor_version (version : List Char) : Except RunError Nat :=
  match splitOnChar '.' version with
  | _ :: second :: _ =>
    match rustParseU32 second with
    | some n => Except.ok n
    | none => Except.error RunError.malformedVersion
  | _ => Except.error RunError.panicOutOfBounds

/-- `normalize_version` from `src/checks.rs`: split on `.`, take segments 0 and
1 (indexing segment 1 panics when absent), remove every `v` character from
segment 0 (Rust's `replace('v', "")`), and rejoin with a dot. -/
def normalize_version (version : List Char) : Except RunError (List Char) :=
  match splitOnChar '.' version with
  | major :: minor :: _ =>
    Except.ok ((major.filter fun c => c ≠ 'v') ++ '.' :: minor)
  | _ => Except.error RunError.panicOutOfBounds

/-- `k8s_openapi` `NodeSystemInfo`: the fields `version_skew` reads (all of
them plain strings in the source type). -/
structure NodeSystemInfo where
  kubelet_version : List Char
  container_runtime_version : List Char
  kernel_version : List Char
  kube_proxy_version : List Char
deriving DecidableEq, Repr

/-- `k8s_openapi` `NodeStatus`: only the optional `node_info` field is read. -/
structure NodeStatus where
  node_info : Option NodeSystemInfo
deriving DecidableEq, Repr

/-- Kubernetes object metadata: only the optional `name` field is read. -/
structure ObjectMeta where
  name : Option (List Char)
deriving DecidableEq, Repr

/-- `k8s_openapi` `Node`: metadata plus optional status. -/
structure Node where
  metadata : ObjectMeta
  status : Option NodeStatus
deriving DecidableEq, Repr

/-- The `NodeDetail` record built by `version_skew` (field names as in the
source, including the `kublet_version` spelling). -/
structure NodeDetail where
  name : List Char
  container_runtime : List Char
  kernel_version : List Char
  kube_proxy_version : List Char
  kublet_version : List Char
  kubernetes_version : List Char
  control_plane_version : List Char
deriving DecidableEq, Repr

/-- The per-node loop body of `version_skew`, with the running `skewed`
accumulator made explicit. Unwraps follow source order: `status`, `node_info`,
parse the kubelet minor version, and only on a mismatch unwrap the node name
and normalize the kubelet version before pushing the detail record. -/
def version_skew_go (cp_version : List Char) (cp_minor : Nat)
    (acc : List NodeDetail) : List Node → Except RunError (List NodeDetail)
  | [] => Except.ok acc
  | node :: rest =>
    match node.status with
    | none => Except.error RunError.panicUnwrapNone
    | some status =>
      match status.node_info with
      | none => Except.error RunError.panicUnwrapNone
      | some info =>
        match parse_minor_version info.kubelet_version with
        | Except.error e => Except.error e
        | Except.ok node_minor =>
          if cp_minor ≠ node_minor then
            match node.metadata.name with
            | none => Except.error RunError.panicUnwrapNone
            | some nm =>
              match normalize_version info.kubelet_version with
              | Except.error e => Except.error e
              | Except.ok kv =>
                version_skew_go cp_version cp_minor
                  (acc ++ [{ name := nm
                             container_runtime := info.container_runtime_version
                             kernel_version := info.kernel_version
                             kube_proxy_version := info.kube_proxy_version
                             kublet_version := info.kubelet_version
                             kubernetes_version := kv
                             control_plane_version := cp_version }]) rest
          else version_skew_go cp_version cp_minor acc rest

/-- `version_skew` from `src/checks.rs`: parse the control-plane minor version
once, collect one `NodeDetail` per node whose kubelet minor version differs,
and collapse an empty collection to `none`. -/
def version_skew (control_plane_version : List Char) (nodes : List Node) :
    Except RunError (Option (List NodeDetail)) :=
  match parse_minor_version control_plane_version with
  | Except.error e => Except.error e
  | Except.ok cp_minor =>
    match version_skew_go control_plane_version cp_minor [] nodes with
    | Except.error e => Except.error e
    | Except.ok skewed =>
      if skewed.isEmpty then Except.ok none else Except.ok (some skewed)

/-- `aws_sdk_eks` nodegroup health issue: optional code and message. The code
is a string-backed enum in the SDK, modelled as its string form. -/
structure NodegroupIssue where
  code : Option (List Char)
  message : Option (List Char)
deriving DecidableEq, Repr

/-- `aws_sdk_eks` `NodegroupHealth`: an optional list of issues. -/
structure NodegroupHealth where
  issues : Option (List NodegroupIssue)
deriving DecidableEq, Repr

/-- `aws_sdk_eks` `Nodegroup`: the fields the checks read. -/
structure Nodegroup where
  nodegroup_name : Option (List Char)
  subnets : Option (List (List Char))
  health : Option NodegroupHealth
deriving DecidableEq, Repr

/-- The string form of `NodegroupIssueCode::InternalFailure`, the default used
when an issue carries no code. -/
def internalFailureCode : List Char :=
  ['I', 'n', 't', 'e', 'r', 'n', 'a', 'l', 'F', 'a', 'i', 'l', 'u', 'r', 'e']

/-- The `NodegroupHealthIssue` record built by the health check. -/
structure NodegroupHealthIssue where
  name : List Char
  code : List Char
  message : List Char
deriving DecidableEq, Repr

/-- The per-group loop body of `eks_managed_node_group_health`: unwrap the
group name (a panic when absent), then, when a health block with an issue list
is present, push one record per issue, defaulting an absent code to
`InternalFailure` and an absent message to the empty string. -/
def node_group_health_go (acc : List NodegroupHealthIssue) :
    List Nodegroup → Except RunError (List NodegroupHealthIssue)
  | [] => Except.ok acc
  | group :: rest =>
    match group.nodegroup_name with
    | none => Except.error RunError.panicUnwrapNone
    | some name =>
      match group.health with
      | some health =>
        match health.issues with
        | some issues =>
          node_group_health_go
            (acc ++ issues.map fun issue =>
              { name := name
                code := issue.code.getD internalFailureCode
                message := issue.message.getD [] }) rest
        | none => node_group_health_go acc rest
      | none => node_group_health_go acc rest

/-- `eks_managed_node_group_health` from `src/checks.rs`: collect one record
per reported health issue across all groups, collapsing an empty collection to
`none`. -/
def eks_managed_node_group_health (node_groups : List Nodegroup) :
    Except RunError (Option (List NodegroupHealthIssue)) :=
  match node_group_health_go [] node_groups with
  | Except.error e => Except.error e
  | Except.ok health_issues =>
    if health_issues.isEmpty then Except.ok none
    else Except.ok (some health_issues)

/-- `aws_sdk_autoscaling` `AutoScalingGroup`: only the optional comma-delimited
`vpc_zone_identifier` subnet string is read by the data-plane check. -/
structure AutoScalingGroup where
  vpc_zone_identifier : Option (List Char)
deriving DecidableEq, Repr

/-- `aws_sdk_eks` `FargateProfile`: only the optional subnet list is read. -/
structure FargateProfile where
  subnets : Option (List (List Char))
deriving DecidableEq, Repr

/-- `aws_sdk_ec2` `Subnet` as returned by the subnet collector: every field the
checks read is optional in the SDK type. -/
structure AwsSubnet where
  subnet_id : Option (List Char)
  availability_zone : Option (List Char)
  availability_zone_id : Option (List Char)
  available_ip_address_count : Option Int
  cidr_block : Option (List Char)
deriving DecidableEq, Repr

/-- The `Subnet` record built by the subnet-capacity checks. -/
structure Subnet where
  id : List Char
  availability_zone : List Char
  availability_zone_id : List Char
  available_ips : Int
  cidr_block : List Char
deriving DecidableEq, Repr

/-- `HashSet::insert`, modelled on a duplicate-free list: a refinement of the
hash set that fixes iteration order to insertion order (no claim depends on the
set's iteration order). -/
def insertId (ids : List (List Char)) (x : List Char) : List (List Char) :=
  if x ∈ ids then ids else ids ++ [x]

/-- The managed-node-group loop of `ips_available_for_data_plane`: unwrap each
group's subnet list (a panic when absent) and insert every subnet id. -/
def collectManaged (ids : List (List Char)) :
    List Nodegroup → Except RunError (List (List Char))
  | [] => Except.ok ids
  | group :: rest =>
    match group.subnets with
    | none => Except.error RunError.panicUnwrapNone
    | some subnets => collectManaged (subnets.foldl insertId ids) rest

/-- The self-managed-group loop of `ips_available_for_data_plane`: unwrap each
group's `vpc_zone_identifier` (a panic when absent), split it on `,` and insert
every piece. -/
def collectSelfManaged (ids : List (List Char)) :
    List AutoScalingGroup → Except RunError (List (List Char))
  | [] => Except.ok ids
  | group :: rest =>
    match group.vpc_zone_identifier with
    | none => Except.error RunError.panicUnwrapNone
    | some zones =>
      collectSelfManaged ((splitOnChar ',' zones).foldl insertId ids) rest

/-- The Fargate-profile loop of `ips_available_for_data_plane`: unwrap each
profile's subnet list (a panic when absent) and insert every subnet id. -/
def collectFargate (ids : List (List Char)) :
    List FargateProfile → Except RunError (List (List Char))
  | [] => Except.ok ids
  | profile :: rest =>
    match profile.subnets with
    | none => Except.error RunError.panicUnwrapNone
    | some subnets => collectFargate (subnets.foldl insertId ids) rest

/-- Build one `Subnet` row per collector-returned subnet, unwrapping every
field (a panic when any is absent), in input order. -/
def subnetRows : List AwsSubnet → Except RunError (List Subnet)
  | [] => Except.ok []
  | s :: rest =>
    match s.subnet_id, s.availability_zone, s.availability_zone_id,
        s.available_ip_address_count, s.cidr_block with
    | some id, some az, some azid, some ips, some cidr =>
      match subnetRows rest with
      | Except.error e => Except.error e
      | Except.ok rows =>
        Except.ok ({ id := id, availability_zone := az,
                     availability_zone_id := azid, available_ips := ips,
                     cidr_block := cidr } :: rows)
    | _, _, _, _, _ => Except.error RunError.panicUnwrapNone

/-- `ips_available_for_data_plane` from `src/checks.rs`. The batched subnet
collector `get_subnets` is a parameter; the first component of the result is
the log of batched queries issued (the source has a single call site, so the
log is a one-element list holding the deduplicated id set in insertion order).
Collections are walked in source order: managed groups, then self-managed
groups, then Fargate profiles; an absent collection contributes nothing. -/
def ips_available_for_data_plane
    (get_subnets : List (List Char) → List AwsSubnet)
    (eks_managed_node_groups : Option (List Nodegroup))
    (fargate_profiles : Option (List FargateProfile))
    (self_managed_node_groups : Option (List AutoScalingGroup)) :
    Except RunError (List (List (List Char)) × List Subnet) :=
  match (match eks_managed_node_groups with
         | some groups => collectManaged [] groups
         | none => Except.ok []) with
  | Except.error e => Except.error e
  | Except.ok ids1 =>
    match (match self_managed_node_groups with
           | some groups => collectSelfManaged ids1 groups
           | none => Except.ok ids1) with
    | Except.error e => Except.error e
    | Except.ok ids2 =>
      match (match fargate_profiles with
             | some profiles => collectFargate ids2 profiles
             | none => Except.ok ids2) with
      | Except.error e => Except.error e
      | Except.ok ids3 =>
        match subnetRows (get_subnets ids3) with
        | Except.error e => Except.error e
        | Except.ok rows => Except.ok ([ids3], rows)

/-- Modelled from the spec: `aws::AddonVersion` lives in the collector module
(`src/aws.rs`), which is not part of the analyzed sources. Per the spec it
carries "the add-on default and latest version" for one Kubernetes version.
The checks engine only stores values of this type, never inspects them. -/
structure AddonVersion where
  latest : List Char
  default_version : List Char
deriving DecidableEq, Repr

/-- `aws_sdk_eks` `AddonIssue`: optional code and message; carried opaquely. -/
structure AddonIssue where
  code : Option (List Char)
  message : Option (List Char)
deriving DecidableEq, Repr

/-- `aws_sdk_eks` `AddonHealth`: an optional list of issues. -/
structure AddonHealth where
  issues : Option (List AddonIssue)
deriving DecidableEq, Repr

/-- `aws_sdk_eks` `Addon`: the fields `update_addon_version` reads. -/
structure Addon where
  addon_name : Option (List Char)
  addon_version : Option (List Char)
  health : Option AddonHealth
deriving DecidableEq, Repr

/-- The `AddonStatus` record built by `update_addon_version` (field names as in
the source, including the `target_kubnernetes_version` spelling). -/
structure AddonStatus where
  name : List Char
  version : List Char
  current_kubernetes_version : AddonVersion
  target_kubnernetes_version : AddonVersion
  issues : Option (List AddonIssue)
deriving DecidableEq, Repr

/-- The per-add-on loop body of `update_addon_version`, with the status
accumulator and the log of `get_addon_versions` lookups (pairs of add-on name
and Kubernetes version queried) made explicit. Per add-on, in source order:
unwrap the name (a panic when absent), extract the health issues, look up the
compatible versions for the current and then the target Kubernetes version,
and push the status record (unwrapping the installed version, a panic when
absent). -/
def update_addon_version_go
    (get_addon_versions : List Char → List Char → AddonVersion)
    (cluster_version target_version : List Char)
    (acc : List AddonStatus) (log : List (List Char × List Char)) :
    List Addon → Except RunError (List AddonStatus × List (List Char × List Char))
  | [] => Except.ok (acc, log)
  | addon :: rest =>
    match addon.addon_name with
    | none => Except.error RunError.panicUnwrapNone
    | some name =>
      let issues := match addon.health with
        | some health => health.issues
        | none => none
      let current := get_addon_versions name cluster_version
      let target := get_addon_versions name target_version
      match addon.addon_version with
      | none => Except.error RunError.panicUnwrapNone
      | some version =>
        update_addon_version_go get_addon_versions cluster_version
          target_version
          (acc ++ [{ name := name, version := version,
                     current_kubernetes_version := current,
                     target_kubnernetes_version := target, issues := issues }])
          (log ++ [(name, cluster_version), (name, target_version)]) rest

/-- `update_addon_version` from `src/checks.rs`: compute the target version
`1.{minor+1}` from the cluster version, walk the (optional) installed add-on
collection building one `AddonStatus` per add-on, and collapse an empty
collection to `none`. The `minor + 1` in the source is a `u32` addition, so
the increment is taken modulo `2^32` — the wrap-around of release builds (a
debug build would abort on the overflow; either way the unwrapped successor
is never produced). The `get_addon_versions` collector is a parameter and
the second component of the result is the log of lookups it received. -/
def update_addon_version
    (get_addon_versions : List Char → List Char → AddonVersion)
    (addons : Option (List Addon)) (cluster_version : List Char) :
    Except RunError (Option (List AddonStatus) × List (List Char × List Char)) :=
  match parse_minor_version cluster_version with
  | Except.error e => Except.error e
  | Except.ok minor =>
    match (match addons with
           | some l =>
             update_addon_version_go get_addon_versions cluster_version
               ('1' :: '.' :: Nat.toDigits 10 ((minor + 1) % 4294967296))
               [] [] l
           | none => Except.ok ([], [])) with
    | Except.error e => Except.error e
    | Except.ok (addon_versions, log) =>
      if addon_versions.isEmpty then Except.ok (none, log)
      else Except.ok (some addon_versions, log)

/-- Collapse an empty list to `none` — the engine's "absence = healthy"
convention, used to state what the checks return. -/
def collapse {α : Type} (l : List α) : Option (List α) :=
  if l.isEmpty then none else some l

/-- Specification-side view of a node's kubelet minor version, following the
same unwraps the check performs. -/
def nodeKubeletMinor (n : Node) : Except RunError Nat :=
  match n.status with
  | none => Except.error RunError.panicUnwrapNone
  | some st =>
    match st.node_info with
    | none => Except.error RunError.panicUnwrapNone
    | some info => parse_minor_version info.kubelet_version

/-- Whether a node's kubelet minor version differs from the control plane's. -/
def nodeSkewed (cp_minor : Nat) (n : Node) : Bool :=
  match nodeKubeletMinor n with
  | Except.ok m => m != cp_minor
  | Except.error _ => true

/-- The node-info block of a node, with a vacuous default for the malformed
case the well-formedness hypotheses rule out. -/
def nodeInfoOf (n : Node) : NodeSystemInfo :=
  ((n.status.bind NodeStatus.node_info).getD
    { kubelet_version := [], container_runtime_version := [],
      kernel_version := [], kube_proxy_version := [] })

/-- Specification-side view of the detail record `version_skew` builds for a
mismatched node. -/
def nodeDetailSpec (cp_version : List Char) (n : Node) : NodeDetail :=
  { name := n.metadata.name.getD []
    container_runtime := (nodeInfoOf n).container_runtime_version
    kernel_version := (nodeInfoOf n).kernel_version
    kube_proxy_version := (nodeInfoOf n).kube_proxy_version
    kublet_version := (nodeInfoOf n).kubelet_version
    kubernetes_version :=
      (normalize_version (nodeInfoOf n).kubelet_version).toOption.getD []
    control_plane_version := cp_version }

/-- The input contract the node collector guarantees: status, node-info and
name present, and a parseable kubelet minor version. -/
def nodeWF (n : Node) : Prop :=
  (∃ st, n.status = some st ∧ ∃ info, st.node_info = some info ∧
    ∃ m, parse_minor_version info.kubelet_version = Except.ok m) ∧
  ∃ nm, n.metadata.name = some nm

theorem splitOnChar_ne_nil (sep : Char) (s : List Char) :
    splitOnChar sep s ≠ [] := by
  cases s with
  | nil => simp [splitOnChar]
  | cons c rest =>
    simp only [splitOnChar]
    cases h : splitOnChar sep rest with
    | nil => simp
    | cons p ps =>
      by_cases hc : c = sep <;> simp [hc]

theorem splitOnChar_of_not_mem {sep : Char} {s : List Char} (h : sep ∉ s) :
    splitOnChar sep s = [s] := by
  induction s with
  | nil => rfl
  | cons c rest ih =>
    simp only [List.mem_cons, not_or] at h
    have hc : ¬c = sep := fun he => h.1 he.symm
    simp [splitOnChar, ih h.2, hc]

theorem splitOnChar_append {sep : Char} {a : List Char} (b : List Char)
    (ha : sep ∉ a) :
    splitOnChar sep (a ++ sep :: b) = a :: splitOnChar sep b := by
  induction a with
  | nil =>
    simp only [List.nil_append, splitOnChar]
    cases h : splitOnChar sep b with
    | nil => exact absurd h (splitOnChar_ne_nil sep b)
    | cons p ps => simp
  | cons c a' ih =>
    simp only [List.mem_cons, not_or] at ha
    have hc : ¬c = sep := fun he => ha.1 he.symm
    simp only [List.cons_append, splitOnChar, List.append_eq]
    rw [ih ha.2]
    simp [hc]

theorem not_mem_of_mem_splitOnChar {sep : Char} {s p : List Char}
    (h : p ∈ splitOnChar sep s) : sep ∉ p := by
  induction s generalizing p with
  | nil =>
    simp only [splitOnChar, List.mem_singleton] at h
    simp [h]
  | cons c rest ih =>
    simp only [splitOnChar] at h
    cases hs : splitOnChar sep rest with
    | nil => exact absurd hs (splitOnChar_ne_nil sep rest)
    | cons q qs =>
      rw [hs] at h
      have hq : sep ∉ q := ih (hs ▸ List.mem_cons_self q qs)
      have hqs : ∀ x ∈ qs, sep ∉ x := fun x hx =>
        ih (hs ▸ List.mem_cons_of_mem q hx)
      by_cases hc : c = sep
      · simp only [hc, if_true, eq_self_iff_true, List.mem_cons] at h
        rcases h with h | h | h
        · simp [h]
        · subst h; exact hq
        · exact hqs p h
      · simp only [if_neg hc, List.mem_cons] at h
        rcases h with h | h
        · subst h
          simp only [List.mem_cons, not_or]
          exact ⟨fun he => hc he.symm, hq⟩
        · exact hqs p h

theorem normalize_ok_of_parse_ok {v : List Char} {m : Nat}
    (h : parse_minor_version v = Except.ok m) :
    ∃ s, normalize_version v = Except.ok s := by
  unfold parse_minor_version at h
  unfold normalize_version
  cases hs : splitOnChar '.' v with
  | nil => rw [hs] at h; exact absurd h (by simp)
  | cons major rest =>
    cases rest with
    | nil => rw [hs] at h; exact absurd h (by simp)
    | cons minor rest2 => exact ⟨_, rfl⟩

theorem version_skew_go_append (cp : List Char) (cpm : Nat)
    (l1 : List Node) (h : ∀ n ∈ l1, nodeWF n) :
    ∀ (acc : List NodeDetail) (l2 : List Node),
    version_skew_go cp cpm acc (l1 ++ l2) =
      version_skew_go cp cpm
        (acc ++ (l1.filter (nodeSkewed cpm)).map (nodeDetailSpec cp)) l2 := by
  induction l1 with
  | nil => intro acc l2; simp
  | cons n rest ih =>
    intro acc l2
    obtain ⟨⟨st, hst, info, hinfo, m, hm⟩, nm, hnm⟩ := h n (List.mem_cons_self _ _)
    have hrest : ∀ x ∈ rest, nodeWF x := fun x hx =>
      h x (List.mem_cons_of_mem _ hx)
    have hminor : nodeKubeletMinor n = Except.ok m := by
      simp [nodeKubeletMinor, hst, hinfo, hm]
    have hinfoOf : nodeInfoOf n = info := by
      simp [nodeInfoOf, hst, hinfo]
    simp only [List.cons_append, version_skew_go, hst, hinfo, hm]
    by_cases hcm : cpm = m
    · have hskew : nodeSkewed cpm n = false := by
        simp [nodeSkewed, hminor, hcm]
      rw [if_neg (by simp [hcm])]
      rw [List.filter_cons, hskew]
      simp only [Bool.false_eq_true, if_false]
      exact ih hrest acc l2
    · have hskew : nodeSkewed cpm n = true := by
        simp [nodeSkewed, hminor]
        exact fun he => hcm he.symm
      obtain ⟨s, hs⟩ := normalize_ok_of_parse_ok hm
      have hdetail : nodeDetailSpec cp n =
          { name := nm
            container_runtime := info.container_runtime_version
            kernel_version := info.kernel_version
            kube_proxy_version := info.kube_proxy_version
            kublet_version := info.kubelet_version
            kubernetes_version := s
            control_plane_version := cp } := by
        simp [nodeDetailSpec, hinfoOf, hnm, hs, Except.toOption]
      rw [if_pos hcm]
      simp only [hnm, hs, List.append_eq]
      rw [ih hrest, List.filter_cons, hskew]
      simp [hdetail, List.append_assoc]

theorem version_skew_go_spec (cp : List Char) (cpm : Nat) (nodes : List Node)
    (h : ∀ n ∈ nodes, nodeWF n) :
    version_skew_go cp cpm [] nodes =
      Except.ok ((nodes.filter (nodeSkewed cpm)).map (nodeDetailSpec cp)) := by
  have := version_skew_go_append cp cpm nodes h [] []
  rw [List.append_nil] at this
  rw [this]
  simp [version_skew_go]

/-- Under the collector contract, `nodeSkewed` is exactly "the node's kubelet
minor version is not the control plane's". -/
theorem nodeSkewed_false_iff {cpm : Nat} {n : Node} (h : nodeWF n) :
    nodeSkewed cpm n = false ↔ nodeKubeletMinor n = Except.ok cpm := by
  obtain ⟨⟨st, hst, info, hinfo, m, hm⟩, _⟩ := h
  have hminor : nodeKubeletMinor n = Except.ok m := by
    simp [nodeKubeletMinor, hst, hinfo, hm]
  unfold nodeSkewed
  rw [hminor]
  simp only [bne_eq_false_iff_eq]
  constructor
  · intro he; rw [he]
  · intro he; exact Except.ok.inj he

/-- C1: for every control-plane version and node sequence satisfying the
collector contract, `version_skew` returns `none` iff every node's kubelet
minor version equals the control plane's; otherwise it returns exactly the
detail records of the mismatched nodes, in input order. -/
theorem version_skew_characterization (cp : List Char) (nodes : List Node)
    (cpm : Nat) (hcp : parse_minor_version cp = Except.ok cpm)
    (hwf : ∀ n ∈ nodes, nodeWF n) :
    version_skew cp nodes =
      Except.ok
        (collapse ((nodes.filter (nodeSkewed cpm)).map (nodeDetailSpec cp))) ∧
    (version_skew cp nodes = Except.ok none ↔
      ∀ n ∈ nodes, nodeKubeletMinor n = Except.ok cpm) := by
  have hgo := version_skew_go_spec cp cpm nodes hwf
  have hmain : version_skew cp nodes =
      Except.ok
        (collapse ((nodes.filter (nodeSkewed cpm)).map (nodeDetailSpec cp))) := by
    simp only [version_skew, hcp, hgo, collapse]
    by_cases he :
        ((nodes.filter (nodeSkewed cpm)).map (nodeDetailSpec cp)).isEmpty
    · simp [he]
    · simp [he]
  refine ⟨hmain, ?_⟩
  rw [hmain]
  constructor
  · intro hnone n hn
    have hcol := Except.ok.inj hnone
    rw [collapse] at hcol
    by_cases he :
        ((nodes.filter (nodeSkewed cpm)).map (nodeDetailSpec cp)).isEmpty
    · have hfil : nodes.filter (nodeSkewed cpm) = [] := by
        rw [List.isEmpty_iff, List.map_eq_nil_iff] at he
        exact he
      have hns : ¬nodeSkewed cpm n = true := by
        intro ht
        have hmem : n ∈ nodes.filter (nodeSkewed cpm) :=
          List.mem_filter.mpr ⟨hn, ht⟩
        rw [hfil] at hmem
        exact absurd hmem (List.not_mem_nil n)
      exact (nodeSkewed_false_iff (hwf n hn)).mp (Bool.not_eq_true _ ▸ hns)
    · rw [if_neg he] at hcol
      exact absurd hcol (Option.some_ne_none _)
  · intro hall
    have hfil : nodes.filter (nodeSkewed cpm) = [] := by
      rw [List.filter_eq_nil_iff]
      intro n hn ht
      have hf := (nodeSkewed_false_iff (hwf n hn)).mpr (hall n hn)
      rw [hf] at ht
      exact Bool.false_ne_true ht
    rw [hfil]
    simp [collapse]

/-- The node-info block of a concrete node at kubelet `v1.24.7`. -/
def sampleInfo24 : NodeSystemInfo :=
  ⟨['v', '1', '.', '2', '4', '.', '7'], ['c'], ['k'], ['p']⟩

/-- The node-info block of a concrete node at kubelet `v1.23.9`. -/
def sampleInfo23 : NodeSystemInfo :=
  ⟨['v', '1', '.', '2', '3', '.', '9'], ['c'], ['k'], ['p']⟩

/-- A concrete node at kubelet `v1.24.7`, used by witnesses. -/
def sampleNode24 : Node :=
  ⟨⟨some ['a']⟩, some ⟨some sampleInfo24⟩⟩

/-- A concrete node at kubelet `v1.23.9`, used by witnesses. -/
def sampleNode23 : Node :=
  ⟨⟨some ['b']⟩, some ⟨some sampleInfo23⟩⟩

/-- Witness for C1: control plane `1.24`, one matching node (`v1.24.7`) and
one mismatched node (`v1.23.9`); the check reports exactly the mismatched
node. -/
theorem version_skew_characterization_witness :
    version_skew ['1', '.', '2', '4'] [sampleNode24, sampleNode23] =
      Except.ok (some
        [{ name := ['b']
           container_runtime := ['c']
           kernel_version := ['k']
           kube_proxy_version := ['p']
           kublet_version := ['v', '1', '.', '2', '3', '.', '9']
           kubernetes_version := ['1', '.', '2', '3']
           control_plane_version := ['1', '.', '2', '4'] }]) := by
  have h := version_skew_characterization ['1', '.', '2', '4']
      [sampleNode24, sampleNode23] 24 (by decide) ?_
  · rw [h.1]
    decide
  · intro n hn
    rcases List.mem_cons.mp hn with he | hn2
    · subst he
      exact ⟨⟨⟨some sampleInfo24⟩, rfl, sampleInfo24, rfl, 24, by decide⟩,
        ['a'], rfl⟩
    · rcases List.mem_cons.mp hn2 with he | h3
      · subst he
        exact ⟨⟨⟨some sampleInfo23⟩, rfl, sampleInfo23, rfl, 23, by decide⟩,
          ['b'], rfl⟩
      · exact absurd h3 (List.not_mem_nil n)

theorem filter_ne_eq_self {c : Char} {l : List Char} (h : c ∉ l) :
    l.filter (fun x => x ≠ c) = l := by
  rw [List.filter_eq_self]
  intro a ha
  simp only [ne_eq, decide_not, Bool.not_eq_eq_eq_not, Bool.not_true,
    decide_eq_false_iff_not]
  exact fun he => h (he ▸ ha)

/-- Counterexample to C4 as stated: a leading non-`v` prefix on the major
segment is not stripped — the code removes `v` characters only, so `x1.20.7`
normalizes to `x1.20`, not `1.20`. -/
theorem normalize_version_counterexample :
    normalize_version ['x', '1', '.', '2', '0', '.', '7'] =
      Except.ok ['x', '1', '.', '2', '0'] ∧
    Except.ok ['x', '1', '.', '2', '0'] ≠
      (Except.ok ['1', '.', '2', '0'] : Except RunError (List Char)) := by
  decide

/-- C4 (amended): `normalize_version` removes every `v` character from the
major segment — in particular a leading `v` marker — and returns
`"{major}.{minor}"`, discarding patch/build information; and it is idempotent
on every successful output (hence on already-normalized strings). -/
theorem normalize_version_amended :
    (∀ (M m rest : List Char), 'v' ∉ M → '.' ∉ M → '.' ∉ m →
      normalize_version (('v' :: M) ++ '.' :: (m ++ '.' :: rest)) =
        Except.ok (M ++ '.' :: m)) ∧
    (∀ (v s : List Char), normalize_version v = Except.ok s →
      normalize_version s = Except.ok s) := by
  constructor
  · intro M m rest hv hM hm
    have hmajor : '.' ∉ 'v' :: M := by
      simp only [List.mem_cons, not_or]
      exact ⟨by decide, hM⟩
    unfold normalize_version
    rw [splitOnChar_append (m ++ '.' :: rest) hmajor, splitOnChar_append rest hm]
    simp only
    rw [List.filter_cons]
    simp [filter_ne_eq_self hv]
    intro a ha he
    exact hv (he ▸ ha)
  · intro v s hvs
    unfold normalize_version at hvs
    unfold normalize_version
    cases hsplit : splitOnChar '.' v with
    | nil => rw [hsplit] at hvs; exact absurd hvs (by simp)
    | cons major rest1 =>
      cases rest1 with
      | nil => rw [hsplit] at hvs; exact absurd hvs (by simp)
      | cons minor rest2 =>
        rw [hsplit] at hvs
        have hs : s = major.filter (fun c => c ≠ 'v') ++ '.' :: minor :=
          (Except.ok.inj hvs).symm
        have hmaj_mem : major ∈ splitOnChar '.' v := by
          rw [hsplit]; exact List.mem_cons_self _ _
        have hmin_mem : minor ∈ splitOnChar '.' v := by
          rw [hsplit]; exact List.mem_cons_of_mem _ (List.mem_cons_self _ _)
        have hmaj : '.' ∉ major := not_mem_of_mem_splitOnChar hmaj_mem
        have hmin : '.' ∉ minor := not_mem_of_mem_splitOnChar hmin_mem
        have hmajf : '.' ∉ major.filter (fun c => c ≠ 'v') := by
          intro hmem
          exact hmaj (List.mem_of_mem_filter hmem)
        rw [hs, splitOnChar_append minor hmajf, splitOnChar_of_not_mem hmin]
        simp only
        have hff : (major.filter (fun c => c ≠ 'v')).filter (fun c => c ≠ 'v') =
            major.filter (fun c => c ≠ 'v') := by
          rw [List.filter_eq_self]
          intro a ha
          exact (List.mem_filter.mp ha).2
        rw [hff]

/-- Witness for C4 (amended): `v1.20.7` normalizes to `1.20`, and normalizing
the result again leaves it unchanged. -/
theorem normalize_version_amended_witness :
    normalize_version ['v', '1', '.', '2', '0', '.', '7'] =
      Except.ok ['1', '.', '2', '0'] ∧
    normalize_version ['1', '.', '2', '0'] = Except.ok ['1', '.', '2', '0'] := by
  constructor
  · have h := normalize_version_amended.1 ['1'] ['2', '0'] ['7']
      (by decide) (by decide) (by decide)
    exact h
  · exact normalize_version_amended.2 ['v', '1', '.', '2', '0', '.', '7']
      ['1', '.', '2', '0'] (by decide)

/-- Counterexample to C5 as stated: on a version string with fewer than two
dot-separated segments the code does not return an error — indexing `v[1]`
panics (modelled as the dedicated `panicOutOfBounds` outcome, distinct from
the returned `malformedVersion` error). -/
theorem parse_minor_version_counterexample :
    parse_minor_version ['1'] = Except.error RunError.panicOutOfBounds ∧
    RunError.panicOutOfBounds ≠ RunError.malformedVersion := by
  decide

/-- C5 (amended): `parse_minor_version` splits on `.` and returns the second
segment parsed as an unsigned 32-bit integer, tolerating any suffix after the
minor segment; when the second segment is present but not numeric it fails
with the returned `MalformedVersion`-style error; but when the string has
fewer than two dot-separated segments it panics (slice index out of bounds)
rather than returning an error. -/
theorem parse_minor_version_amended :
    (∀ (a b rest : List Char), '.' ∉ a → '.' ∉ b →
      parse_minor_version (a ++ '.' :: (b ++ '.' :: rest)) =
        (match rustParseU32 b with
         | some n => Except.ok n
         | none => Except.error RunError.malformedVersion)) ∧
    (∀ (a b : List Char), '.' ∉ a → '.' ∉ b →
      parse_minor_version (a ++ '.' :: b) =
        (match rustParseU32 b with
         | some n => Except.ok n
         | none => Except.error RunError.malformedVersion)) ∧
    (∀ a : List Char, '.' ∉ a →
      parse_minor_version a = Except.error RunError.panicOutOfBounds) := by
  refine ⟨?_, ?_, ?_⟩
  · intro a b rest ha hb
    unfold parse_minor_version
    rw [splitOnChar_append (b ++ '.' :: rest) ha, splitOnChar_append rest hb]
  · intro a b ha hb
    unfold parse_minor_version
    rw [splitOnChar_append b ha, splitOnChar_of_not_mem hb]
  · intro a ha
    unfold parse_minor_version
    rw [splitOnChar_of_not_mem ha]

/-- Witness for C5 (amended): `v1.20.7-eks-123456` yields minor version `20`
(the suffix after the minor segment is tolerated), and `1.x` yields the
returned error. -/
theorem parse_minor_version_amended_witness :
    parse_minor_version
        ['v', '1', '.', '2', '0', '.',
         '7', '-', 'e', 'k', 's', '-', '1', '2', '3', '4', '5', '6'] =
      Except.ok 20 ∧
    parse_minor_version ['1', '.', 'x'] =
      Except.error RunError.malformedVersion := by
  constructor
  · have h := parse_minor_version_amended.1 ['v', '1'] ['2', '0']
      ['7', '-', 'e', 'k', 's', '-', '1', '2', '3', '4', '5', '6']
      (by decide) (by decide)
    exact h
  · have h := parse_minor_version_amended.2.1 ['1'] ['x'] (by decide) (by decide)
    exact h

/-- Specification-side view of the records the health check emits for one
node group: one per issue when a health block with an issue list is present,
with absent codes defaulted to `InternalFailure` and absent messages to the
empty string. -/
def groupIssuesSpec (g : Nodegroup) : List NodegroupHealthIssue :=
  match g.health with
  | some h =>
    (h.issues.getD []).map fun issue =>
      { name := g.nodegroup_name.getD []
        code := issue.code.getD internalFailureCode
        message := issue.message.getD [] }
  | none => []

theorem node_group_health_go_append (l1 : List Nodegroup)
    (h : ∀ g ∈ l1, g.nodegroup_name ≠ none) :
    ∀ (acc : List NodegroupHealthIssue) (l2 : List Nodegroup),
    node_group_health_go acc (l1 ++ l2) =
      node_group_health_go (acc ++ l1.flatMap groupIssuesSpec) l2 := by
  induction l1 with
  | nil => intro acc l2; simp
  | cons g rest ih =>
    intro acc l2
    have hrest : ∀ x ∈ rest, x.nodegroup_name ≠ none := fun x hx =>
      h x (List.mem_cons_of_mem _ hx)
    obtain ⟨nm, hnm⟩ :
        ∃ nm, g.nodegroup_name = some nm :=
      Option.ne_none_iff_exists'.mp (h g (List.mem_cons_self _ _))
    cases hh : g.health with
    | none =>
      simp only [List.cons_append, node_group_health_go, hnm, hh,
        List.flatMap_cons, List.append_eq]
      rw [ih hrest]
      simp [groupIssuesSpec, hh]
    | some health =>
      cases hi : health.issues with
      | none =>
        simp only [List.cons_append, node_group_health_go, hnm, hh, hi,
          List.flatMap_cons, List.append_eq]
        rw [ih hrest]
        simp [groupIssuesSpec, hh, hi]
      | some issues =>
        simp only [List.cons_append, node_group_health_go, hnm, hh, hi,
          List.flatMap_cons, List.append_eq]
        rw [ih hrest]
        have hspec : groupIssuesSpec g = issues.map fun issue =>
            { name := nm
              code := issue.code.getD internalFailureCode
              message := issue.message.getD [] } := by
          simp [groupIssuesSpec, hh, hi, hnm]
        rw [hspec, List.append_assoc]

/-- C6: for every managed-node-group collection whose groups all carry names,
the health check emits exactly one record per health issue of each group that
has a health block with issues (group name, code defaulted to
`InternalFailure` when absent, message defaulted to the empty string when
absent), and collapses the no-issue case to `none`. -/
theorem node_group_health_characterization (gs : List Nodegroup)
    (h : ∀ g ∈ gs, g.nodegroup_name ≠ none) :
    eks_managed_node_group_health gs =
      Except.ok (collapse (gs.flatMap groupIssuesSpec)) := by
  have hgo := node_group_health_go_append gs h [] []
  rw [List.append_nil] at hgo
  simp only [List.nil_append] at hgo
  simp only [eks_managed_node_group_health, hgo, node_group_health_go, collapse]
  by_cases he : (gs.flatMap groupIssuesSpec).isEmpty
  · simp [he]
  · simp [he]

/-- Witness for C6: a group with two issues — the second with absent code and
message — yields both records with the defaults filled in; a group with an
empty issue list yields `none`. -/
theorem node_group_health_characterization_witness :
    eks_managed_node_group_health
        [⟨some ['g'], none,
          some ⟨some [⟨some ['A'], some ['m']⟩, ⟨none, none⟩]⟩⟩] =
      Except.ok (some
        [⟨['g'], ['A'], ['m']⟩, ⟨['g'], internalFailureCode, []⟩]) ∧
    eks_managed_node_group_health [⟨some ['g'], none, some ⟨some []⟩⟩] =
      Except.ok none := by
  constructor
  · have h := node_group_health_characterization
      [⟨some ['g'], none,
        some ⟨some [⟨some ['A'], some ['m']⟩, ⟨none, none⟩]⟩⟩]
      (by decide)
    rw [h]
    decide
  · have h := node_group_health_characterization
      [⟨some ['g'], none, some ⟨some []⟩⟩] (by decide)
    rw [h]
    decide

/-- C9: the health check unwraps every group's name before looking at its
health block, so a collection containing a nameless group (after any prefix of
named groups) fails with the unwrap panic even when that group reports no
health issues at all. -/
theorem node_group_health_missing_name (pre post : List Nodegroup)
    (g : Nodegroup) (hpre : ∀ x ∈ pre, x.nodegroup_name ≠ none)
    (hg : g.nodegroup_name = none) :
    eks_managed_node_group_health (pre ++ g :: post) =
      Except.error RunError.panicUnwrapNone := by
  have hgo := node_group_health_go_append pre hpre [] (g :: post)
  simp only [List.nil_append] at hgo
  simp only [eks_managed_node_group_health, hgo, node_group_health_go, hg]

/-- Witness for C9: a single nameless group with no health block at all makes
the check fail with the unwrap panic. -/
theorem node_group_health_missing_name_witness :
    eks_managed_node_group_health [⟨none, none, none⟩] =
      Except.error RunError.panicUnwrapNone :=
  node_group_health_missing_name [] [] ⟨none, none, none⟩
    (by intro x hx; exact absurd hx (List.not_mem_nil x)) rfl

/-- C3: the three finding-returning checks never return `some []`: whenever
the result is `some`, the contained list is non-empty (emptiness is collapsed
to `none`). -/
theorem finding_never_empty :
    (∀ (cp : List Char) (nodes : List Node) (l : List NodeDetail),
      version_skew cp nodes = Except.ok (some l) → l ≠ []) ∧
    (∀ (gs : List Nodegroup) (l : List NodegroupHealthIssue),
      eks_managed_node_group_health gs = Except.ok (some l) → l ≠ []) ∧
    (∀ (lookup : List Char → List Char → AddonVersion)
      (addons : Option (List Addon)) (cv : List Char)
      (res : List AddonStatus) (log : List (List Char × List Char)),
      update_addon_version lookup addons cv = Except.ok (some res, log) →
      res ≠ []) := by
  refine ⟨?_, ?_, ?_⟩
  · intro cp nodes l h
    unfold version_skew at h
    split at h
    · exact absurd h (by simp)
    · split at h
      · exact absurd h (by simp)
      · split at h
        · exact absurd h (by simp)
        · rename_i hne
          have hl := Option.some.inj (Except.ok.inj h)
          intro hnil
          rw [hl, hnil] at hne
          exact hne rfl
  · intro gs l h
    unfold eks_managed_node_group_health at h
    split at h
    · exact absurd h (by simp)
    · split at h
      · exact absurd h (by simp)
      · rename_i hne
        have hl := Option.some.inj (Except.ok.inj h)
        intro hnil
        rw [hl, hnil] at hne
        exact hne rfl
  · intro lookup addons cv res log h
    unfold update_addon_version at h
    split at h
    · exact absurd h (by simp)
    · split at h
      · exact absurd h (by simp)
      · split at h
        · exact absurd h (by simp)
        · rename_i hne
          have hl := Option.some.inj (congrArg Prod.fst (Except.ok.inj h))
          intro hnil
          rw [hl, hnil] at hne
          exact hne rfl

/-- Witness for C3: concrete non-`none` results of all three checks, obtained
through the theorem, are non-empty. -/
theorem finding_never_empty_witness :
    ([⟨['b'], ['c'], ['k'], ['p'], ['v', '1', '.', '2', '3', '.', '9'],
       ['1', '.', '2', '3'], ['1', '.', '2', '4']⟩] : List NodeDetail) ≠ [] ∧
    ([⟨['g'], ['A'], ['m']⟩] : List NodegroupHealthIssue) ≠ [] ∧
    ([⟨['n'], ['w'], ⟨[], []⟩, ⟨[], []⟩, none⟩] : List AddonStatus) ≠ [] :=
  ⟨finding_never_empty.1 ['1', '.', '2', '4'] [sampleNode23]
      [⟨['b'], ['c'], ['k'], ['p'], ['v', '1', '.', '2', '3', '.', '9'],
        ['1', '.', '2', '3'], ['1', '.', '2', '4']⟩] (by decide),
   finding_never_empty.2.1
      [⟨some ['g'], none, some ⟨some [⟨some ['A'], some ['m']⟩]⟩⟩]
      [⟨['g'], ['A'], ['m']⟩] (by decide),
   finding_never_empty.2.2 (fun _ _ => ⟨[], []⟩)
      (some [⟨some ['n'], some ['w'], none⟩]) ['1', '.', '2', '4']
      [⟨['n'], ['w'], ⟨[], []⟩, ⟨[], []⟩, none⟩]
      [(['n'], ['1', '.', '2', '4']), (['n'], ['1', '.', '2', '5'])]
      (by decide)⟩

theorem mem_insertId {ids : List (List Char)} {x y : List Char} :
    y ∈ insertId ids x ↔ y ∈ ids ∨ y = x := by
  unfold insertId
  by_cases h : x ∈ ids
  · rw [if_pos h]
    constructor
    · exact Or.inl
    · rintro (hy | rfl)
      · exact hy
      · exact h
  · rw [if_neg h]
    simp [List.mem_append]

theorem nodup_insertId {ids : List (List Char)} (x : List Char)
    (h : ids.Nodup) : (insertId ids x).Nodup := by
  unfold insertId
  by_cases hx : x ∈ ids
  · rw [if_pos hx]
    exact h
  · rw [if_neg hx]
    simp [List.nodup_append, h, hx]

theorem mem_foldl_insertId (l : List (List Char)) :
    ∀ (ids : List (List Char)) (y : List Char),
    y ∈ l.foldl insertId ids ↔ y ∈ ids ∨ y ∈ l := by
  induction l with
  | nil => simp
  | cons a l ih =>
    intro ids y
    rw [List.foldl_cons, ih, mem_insertId, List.mem_cons]
    tauto

theorem nodup_foldl_insertId (l : List (List Char)) :
    ∀ ids : List (List Char), ids.Nodup → (l.foldl insertId ids).Nodup := by
  induction l with
  | nil => intro ids h; exact h
  | cons a l ih => intro ids h; exact ih _ (nodup_insertId a h)

theorem collectManaged_spec (gs : List Nodegroup)
    (h : ∀ g ∈ gs, g.subnets ≠ none) :
    ∀ ids, collectManaged ids gs =
      Except.ok
        ((gs.flatMap fun g => g.subnets.getD []).foldl insertId ids) := by
  induction gs with
  | nil => intro ids; simp [collectManaged]
  | cons g rest ih =>
    intro ids
    obtain ⟨s, hs⟩ :=
      Option.ne_none_iff_exists'.mp (h g (List.mem_cons_self _ _))
    have hrest : ∀ x ∈ rest, x.subnets ≠ none := fun x hx =>
      h x (List.mem_cons_of_mem _ hx)
    simp only [collectManaged, hs, List.flatMap_cons]
    rw [ih hrest, List.foldl_append]
    simp [hs]

theorem collectSelfManaged_spec (gs : List AutoScalingGroup)
    (h : ∀ g ∈ gs, g.vpc_zone_identifier ≠ none) :
    ∀ ids, collectSelfManaged ids gs =
      Except.ok
        ((gs.flatMap fun g =>
          splitOnChar ',' (g.vpc_zone_identifier.getD [])).foldl
            insertId ids) := by
  induction gs with
  | nil => intro ids; simp [collectSelfManaged]
  | cons g rest ih =>
    intro ids
    obtain ⟨s, hs⟩ :=
      Option.ne_none_iff_exists'.mp (h g (List.mem_cons_self _ _))
    have hrest : ∀ x ∈ rest, x.vpc_zone_identifier ≠ none := fun x hx =>
      h x (List.mem_cons_of_mem _ hx)
    simp only [collectSelfManaged, hs, List.flatMap_cons]
    rw [ih hrest, List.foldl_append]
    simp [hs]

theorem collectFargate_spec (ps : List FargateProfile)
    (h : ∀ p ∈ ps, p.subnets ≠ none) :
    ∀ ids, collectFargate ids ps =
      Except.ok
        ((ps.flatMap fun p => p.subnets.getD []).foldl insertId ids) := by
  induction ps with
  | nil => intro ids; simp [collectFargate]
  | cons p rest ih =>
    intro ids
    obtain ⟨s, hs⟩ :=
      Option.ne_none_iff_exists'.mp (h p (List.mem_cons_self _ _))
    have hrest : ∀ x ∈ rest, x.subnets ≠ none := fun x hx =>
      h x (List.mem_cons_of_mem _ hx)
    simp only [collectFargate, hs, List.flatMap_cons]
    rw [ih hrest, List.foldl_append]
    simp [hs]

theorem subnetRows_spec (ys : List AwsSubnet) :
    ∀ q : List (List Char), ys.map AwsSubnet.subnet_id = q.map some →
    (∀ s ∈ ys, s.availability_zone ≠ none ∧ s.availability_zone_id ≠ none ∧
      s.available_ip_address_count ≠ none ∧ s.cidr_block ≠ none) →
    ∃ rows, subnetRows ys = Except.ok rows ∧ rows.map Subnet.id = q := by
  induction ys with
  | nil =>
    intro q hq _
    simp only [List.map_nil] at hq
    have hq' : q = [] := by
      cases q with
      | nil => rfl
      | cons x q' => simp at hq
    subst hq'
    exact ⟨[], rfl, rfl⟩
  | cons s ys ih =>
    intro q hq hf
    cases q with
    | nil => simp at hq
    | cons x q' =>
      simp only [List.map_cons, List.cons.injEq] at hq
      obtain ⟨hid, hrest⟩ := hq
      obtain ⟨haz, hazid, hips, hcidr⟩ := hf s (List.mem_cons_self _ _)
      obtain ⟨az, haz'⟩ := Option.ne_none_iff_exists'.mp haz
      obtain ⟨azid, hazid'⟩ := Option.ne_none_iff_exists'.mp hazid
      obtain ⟨ips, hips'⟩ := Option.ne_none_iff_exists'.mp hips
      obtain ⟨cidr, hcidr'⟩ := Option.ne_none_iff_exists'.mp hcidr
      obtain ⟨rows', hrows', hmap'⟩ :=
        ih q' hrest (fun t ht => hf t (List.mem_cons_of_mem _ ht))
      refine ⟨⟨x, az, azid, ips, cidr⟩ :: rows', ?_, ?_⟩
      · simp only [subnetRows, hid, haz', hazid', hips', hcidr', hrows']
      · simp [hmap']

/-- The multiset of subnet ids referenced by all compute constructs, in source
iteration order (managed groups, then self-managed groups with their
comma-delimited strings split, then Fargate profiles), before deduplication. -/
def dataPlaneSubnetIdsSpec (eks : Option (List Nodegroup))
    (fargate : Option (List FargateProfile))
    (smg : Option (List AutoScalingGroup)) : List (List Char) :=
  ((eks.getD []).flatMap fun g => g.subnets.getD []) ++
    ((smg.getD []).flatMap fun g =>
      splitOnChar ',' (g.vpc_zone_identifier.getD [])) ++
    ((fargate.getD []).flatMap fun p => p.subnets.getD [])

/-- C2: for every combination of the three optional compute collections (all
well-formed) and a collector returning one record per queried id, the
data-plane check issues exactly one batched subnet query, whose argument is
duplicate-free and contains exactly the union of all referenced subnet ids
(self-managed groups' comma-delimited strings split first), and the resulting
subnet rows are duplicate-free — one per unique id. -/
theorem data_plane_dedup
    (get_subnets : List (List Char) → List AwsSubnet)
    (eks : Option (List Nodegroup)) (fargate : Option (List FargateProfile))
    (smg : Option (List AutoScalingGroup))
    (h1 : ∀ g ∈ eks.getD [], g.subnets ≠ none)
    (h2 : ∀ g ∈ smg.getD [], g.vpc_zone_identifier ≠ none)
    (h3 : ∀ p ∈ fargate.getD [], p.subnets ≠ none)
    (hc : ∀ q, (get_subnets q).map AwsSubnet.subnet_id = q.map some)
    (hfields : ∀ q s, s ∈ get_subnets q →
      s.availability_zone ≠ none ∧ s.availability_zone_id ≠ none ∧
      s.available_ip_address_count ≠ none ∧ s.cidr_block ≠ none) :
    ∃ q rows,
      ips_available_for_data_plane get_subnets eks fargate smg =
        Except.ok ([q], rows) ∧
      q.Nodup ∧
      (∀ x, x ∈ q ↔ x ∈ dataPlaneSubnetIdsSpec eks fargate smg) ∧
      rows.map Subnet.id = q ∧ rows.Nodup := by
  have e1 : (match eks with
             | some groups => collectManaged [] groups
             | none => Except.ok []) =
      Except.ok
        (((eks.getD []).flatMap fun g => g.subnets.getD []).foldl
          insertId []) := by
    cases eks with
    | none => simp
    | some gs => simpa using collectManaged_spec gs (by simpa using h1) []
  have e2 : ∀ ids, (match smg with
             | some groups => collectSelfManaged ids groups
             | none => Except.ok ids) =
      Except.ok
        (((smg.getD []).flatMap fun g =>
          splitOnChar ',' (g.vpc_zone_identifier.getD [])).foldl
            insertId ids) := by
    intro ids
    cases smg with
    | none => simp
    | some gs => simpa using collectSelfManaged_spec gs (by simpa using h2) ids
  have e3 : ∀ ids, (match fargate with
             | some profiles => collectFargate ids profiles
             | none => Except.ok ids) =
      Except.ok
        (((fargate.getD []).flatMap fun p => p.subnets.getD []).foldl
          insertId ids) := by
    intro ids
    cases fargate with
    | none => simp
    | some ps => simpa using collectFargate_spec ps (by simpa using h3) ids
  have hQ :
      (((fargate.getD []).flatMap fun p => p.subnets.getD []).foldl insertId
        (((smg.getD []).flatMap fun g =>
          splitOnChar ',' (g.vpc_zone_identifier.getD [])).foldl insertId
          (((eks.getD []).flatMap fun g => g.subnets.getD []).foldl
            insertId []))) =
      (dataPlaneSubnetIdsSpec eks fargate smg).foldl insertId [] := by
    rw [dataPlaneSubnetIdsSpec, List.foldl_append, List.foldl_append]
  obtain ⟨rows, hrows, hmap⟩ :=
    subnetRows_spec
      (get_subnets ((dataPlaneSubnetIdsSpec eks fargate smg).foldl insertId []))
      ((dataPlaneSubnetIdsSpec eks fargate smg).foldl insertId [])
      (hc _) (fun s hs => hfields _ s hs)
  have hnodup : ((dataPlaneSubnetIdsSpec eks fargate smg).foldl
      insertId []).Nodup :=
    nodup_foldl_insertId _ [] List.nodup_nil
  refine ⟨(dataPlaneSubnetIdsSpec eks fargate smg).foldl insertId [], rows,
    ?_, hnodup, ?_, hmap, ?_⟩
  · simp only [ips_available_for_data_plane, e1, e2, e3, hQ, hrows]
  · intro x
    rw [mem_foldl_insertId]
    simp
  · have : (rows.map Subnet.id).Nodup := by rw [hmap]; exact hnodup
    exact this.of_map

/-- Witness for C2, mirroring the spec's worked example: two managed node
groups and one Fargate profile referencing five subnet ids of which two are
shared, so the single batched query carries exactly the three unique ids. -/
theorem data_plane_dedup_witness :
    ∃ q rows,
      ips_available_for_data_plane
          (fun q => q.map fun id =>
            ⟨some id, some ['z'], some ['y'], some 37, some ['r']⟩)
          (some [⟨some ['1'], some [['a'], ['b']], none⟩,
                 ⟨some ['2'], some [['b'], ['c']], none⟩])
          (some [⟨some [['a']]⟩]) none =
        Except.ok ([q], rows) ∧
      q.Nodup ∧
      (∀ x, x ∈ q ↔ x ∈ dataPlaneSubnetIdsSpec
        (some [⟨some ['1'], some [['a'], ['b']], none⟩,
               ⟨some ['2'], some [['b'], ['c']], none⟩])
        (some [⟨some [['a']]⟩]) none) ∧
      rows.map Subnet.id = q ∧ rows.Nodup :=
  data_plane_dedup
    (fun q => q.map fun id =>
      ⟨some id, some ['z'], some ['y'], some 37, some ['r']⟩)
    (some [⟨some ['1'], some [['a'], ['b']], none⟩,
           ⟨some ['2'], some [['b'], ['c']], none⟩])
    (some [⟨some [['a']]⟩]) none
    (by decide) (by decide) (by decide)
    (by intro q; induction q with
        | nil => rfl
        | cons x q ih => simp only [List.map_cons, ih])
    (by intro q s hs
        simp only [List.mem_map] at hs
        obtain ⟨id, _, rfl⟩ := hs
        refine ⟨?_, ?_, ?_, ?_⟩ <;> simp)

/-- Counterexample to C8 as stated: a node with a status block but no
node-info is surfaced by an `Option::unwrap` panic — the process-aborting
`panicUnwrapNone` outcome — not by an error value returned to the caller; in
particular the outcome is not `malformedVersion`, the only returned-error
value the checks ever produce. -/
theorem version_skew_missing_field_counterexample :
    version_skew ['1', '.', '2', '4'] [⟨⟨some ['a']⟩, some ⟨none⟩⟩] =
      Except.error RunError.panicUnwrapNone ∧
    RunError.panicUnwrapNone ≠ RunError.malformedVersion := by
  decide

/-- C8 (amended): a node whose status or node-info block is absent makes the
version skew check abort immediately with the surfaced unwrap defect — an
`Option::unwrap` panic, not an error value returned to the caller — and the
node is neither silently skipped nor defaulted (earlier nodes may be
arbitrary well-formed ones). -/
theorem version_skew_missing_field (cp : List Char) (cpm : Nat)
    (pre post : List Node) (n : Node)
    (hcp : parse_minor_version cp = Except.ok cpm)
    (hpre : ∀ x ∈ pre, nodeWF x)
    (hn : n.status = none ∨ ∃ st, n.status = some st ∧ st.node_info = none) :
    version_skew cp (pre ++ n :: post) =
      Except.error RunError.panicUnwrapNone := by
  have hgo := version_skew_go_append cp cpm pre hpre [] (n :: post)
  simp only [List.nil_append] at hgo
  simp only [version_skew, hcp, hgo]
  rcases hn with h | ⟨st, hst, hinfo⟩
  · simp [version_skew_go, h]
  · simp [version_skew_go, hst, hinfo]

/-- Witness for C8: a node with no status block at all is surfaced as the
unwrap defect by the check. -/
theorem version_skew_missing_field_witness :
    version_skew ['1', '.', '2', '4'] [⟨⟨some ['a']⟩, none⟩] =
      Except.error RunError.panicUnwrapNone :=
  version_skew_missing_field ['1', '.', '2', '4'] 24 [] [] ⟨⟨some ['a']⟩, none⟩
    (by decide) (by intro x hx; exact absurd hx (List.not_mem_nil x))
    (Or.inl rfl)

/-- C10: with all three compute collections absent, the data-plane check still
issues exactly one batched subnet lookup — with the empty identifier set — and
returns the empty subnet sequence (not an absent finding) without error. -/
theorem data_plane_empty_collections
    (get_subnets : List (List Char) → List AwsSubnet)
    (h : get_subnets [] = []) :
    ips_available_for_data_plane get_subnets none none none =
      Except.ok ([[]], []) := by
  simp only [ips_available_for_data_plane, h, subnetRows]

/-- Witness for C10 with a collector that returns one record per queried id
(hence nothing for the empty query). -/
theorem data_plane_empty_collections_witness :
    ips_available_for_data_plane
        (fun q => q.map fun id => ⟨some id, some ['z'], some ['y'], some 37,
          some ['r']⟩) none none none =
      Except.ok ([[]], []) :=
  data_plane_empty_collections
    (fun q => q.map fun id => ⟨some id, some ['z'], some ['y'], some 37,
      some ['r']⟩) rfl

/-- The name of an add-on, with a vacuous default for the malformed case the
well-formedness hypotheses rule out. -/
def addonNameOf (a : Addon) : List Char :=
  a.addon_name.getD []

/-- Specification-side view of the status record `update_addon_version` builds
for one add-on. -/
def addonStatusSpec (lookup : List Char → List Char → AddonVersion)
    (cv tgt : List Char) (a : Addon) : AddonStatus :=
  { name := addonNameOf a
    version := a.addon_version.getD []
    current_kubernetes_version := lookup (addonNameOf a) cv
    target_kubnernetes_version := lookup (addonNameOf a) tgt
    issues := a.health.bind AddonHealth.issues }

/-- The lookup calls `update_addon_version` issues for one add-on: the current
cluster version first, then the target version. -/
def addonLookupsSpec (cv tgt : List Char) (a : Addon) :
    List (List Char × List Char) :=
  [(addonNameOf a, cv), (addonNameOf a, tgt)]

theorem length_flatMap_addonLookups (cv tgt : List Char) (l : List Addon) :
    (l.flatMap (addonLookupsSpec cv tgt)).length = 2 * l.length := by
  induction l with
  | nil => rfl
  | cons a rest ih =>
    rw [List.flatMap_cons, List.length_append, ih]
    simp [addonLookupsSpec, List.length_cons, Nat.mul_add, Nat.mul_succ]
    ring

theorem update_addon_version_go_append
    (lookup : List Char → List Char → AddonVersion) (cv tgt : List Char)
    (l1 : List Addon)
    (h : ∀ a ∈ l1, a.addon_name ≠ none ∧ a.addon_version ≠ none) :
    ∀ (acc : List AddonStatus) (log : List (List Char × List Char))
      (l2 : List Addon),
    update_addon_version_go lookup cv tgt acc log (l1 ++ l2) =
      update_addon_version_go lookup cv tgt
        (acc ++ l1.map (addonStatusSpec lookup cv tgt))
        (log ++ l1.flatMap (addonLookupsSpec cv tgt)) l2 := by
  induction l1 with
  | nil => intro acc log l2; simp
  | cons a rest ih =>
    intro acc log l2
    obtain ⟨hname, hver⟩ := h a (List.mem_cons_self _ _)
    have hrest : ∀ x ∈ rest, x.addon_name ≠ none ∧ x.addon_version ≠ none :=
      fun x hx => h x (List.mem_cons_of_mem _ hx)
    obtain ⟨nm, hnm⟩ := Option.ne_none_iff_exists'.mp hname
    obtain ⟨ver, hver'⟩ := Option.ne_none_iff_exists'.mp hver
    have hstatus : addonStatusSpec lookup cv tgt a =
        { name := nm
          version := ver
          current_kubernetes_version := lookup nm cv
          target_kubnernetes_version := lookup nm tgt
          issues := match a.health with
            | some health => health.issues
            | none => none } := by
      cases hh : a.health with
      | none => simp [addonStatusSpec, addonNameOf, hnm, hver', hh]
      | some health => simp [addonStatusSpec, addonNameOf, hnm, hver', hh]
    simp only [List.cons_append, update_addon_version_go, hnm, hver',
      List.map_cons, List.flatMap_cons, List.append_eq]
    rw [ih hrest]
    rw [hstatus]
    simp [addonLookupsSpec, addonNameOf, hnm, List.append_assoc]

/-- Counterexample to C7 as stated: the target minor is the `u32` increment of
the cluster minor, so at cluster version `1.4294967295` (in the domain of
Rust's `u32` parse) the second lookup per add-on queries `1.0` — the wrapped
successor — and never the unbounded successor `1.4294967296` the claim
asserts. -/
theorem update_addon_version_counterexample :
    update_addon_version (fun _ _ => ⟨['L'], ['D']⟩)
        (some [⟨some ['n'], some ['w'], none⟩])
        ['1', '.', '4', '2', '9', '4', '9', '6', '7', '2', '9', '5'] =
      Except.ok
        (some [⟨['n'], ['w'], ⟨['L'], ['D']⟩, ⟨['L'], ['D']⟩, none⟩],
         [(['n'],
           ['1', '.', '4', '2', '9', '4', '9', '6', '7', '2', '9', '5']),
          (['n'], ['1', '.', '0'])]) ∧
    (['1', '.', '0'] : List Char) ≠
      ['1', '.', '4', '2', '9', '4', '9', '6', '7', '2', '9', '6'] := by
  decide

/-- C7 (amended): with a parseable cluster version and a non-empty collection
of well-formed installed add-ons, the check performs exactly two
version-compatibility lookups per add-on — the current cluster version and the
target version `1.{(minor+1) mod 2^32}` (the `u32` increment, which wraps at
minor `4294967295`), in collection order — and returns `some` of one status
record per add-on carrying the installed version, both lookup results, and the
add-on's health issues when present; the result is never `none`. -/
theorem update_addon_version_characterization
    (lookup : List Char → List Char → AddonVersion) (l : List Addon)
    (cv : List Char) (m : Nat) (hcv : parse_minor_version cv = Except.ok m)
    (hne : l ≠ [])
    (h : ∀ a ∈ l, a.addon_name ≠ none ∧ a.addon_version ≠ none) :
    update_addon_version lookup (some l) cv =
      Except.ok
        (some (l.map
          (addonStatusSpec lookup cv
            ('1' :: '.' :: Nat.toDigits 10 ((m + 1) % 4294967296)))),
         l.flatMap
           (addonLookupsSpec cv
             ('1' :: '.' :: Nat.toDigits 10 ((m + 1) % 4294967296)))) ∧
    (l.flatMap
      (addonLookupsSpec cv
        ('1' :: '.' :: Nat.toDigits 10 ((m + 1) % 4294967296)))).length =
        2 * l.length := by
  refine ⟨?_, length_flatMap_addonLookups _ _ l⟩
  have hgo := update_addon_version_go_append lookup cv
    ('1' :: '.' :: Nat.toDigits 10 ((m + 1) % 4294967296)) l h [] [] []
  rw [List.append_nil] at hgo
  simp only [List.nil_append] at hgo
  simp only [update_addon_version, hcv, hgo, update_addon_version_go]
  have hmapne :
      (l.map (addonStatusSpec lookup cv
        ('1' :: '.' :: Nat.toDigits 10 ((m + 1) % 4294967296)))).isEmpty =
        false := by
    rw [List.isEmpty_eq_false]
    simp [hne]
  rw [hmapne]
  simp

/-- Witness for C7, mirroring the spec's worked example: one add-on installed
at `v1.2.0` on a cluster at `1.24`; the check queries compatibility for `1.24`
and `1.25` (two lookups) and returns the status record, not `none`. -/
theorem update_addon_version_characterization_witness :
    update_addon_version (fun _ _ => ⟨['L'], ['D']⟩)
        (some [⟨some ['n'], some ['v', '1', '.', '2', '.', '0'], none⟩])
        ['1', '.', '2', '4'] =
      Except.ok
        (some [⟨['n'], ['v', '1', '.', '2', '.', '0'], ⟨['L'], ['D']⟩,
          ⟨['L'], ['D']⟩, none⟩],
         [(['n'], ['1', '.', '2', '4']), (['n'], ['1', '.', '2', '5'])]) ∧
    ([(['n'], ['1', '.', '2', '4']),
      (['n'], ['1', '.', '2', '5'])] : List (List Char × List Char)).length =
      2 * 1 := by
  have h := update_addon_version_characterization (fun _ _ => ⟨['L'], ['D']⟩)
    [⟨some ['n'], some ['v', '1', '.', '2', '.', '0'], none⟩]
    ['1', '.', '2', '4'] 24 (by decide) (by decide) (by decide)
  constructor
  · rw [h.1]
    decide
  · decide

end Eksup
